import Mathlib

/-!
Verification development for the FBX-Humanoid-Poser-V2 repository.

The embedding models the pose state machine of `src/components/Scene.tsx`
(the `Model` component: bounding-box normalization, bone discovery,
`getPose` / `setPose` / `resetPose`) and the app-level routing and handler
registry of `src/App.tsx` (`registerPoseHandler`, `unregisterPoseHandler`,
`handleDeleteModel`, `activeModelId`, `handleResetPose`).

Numeric components (positions, quaternions, scales, box extents) are
modelled as rationals: the source stores IEEE doubles, but every operation
the claims exercise either copies values verbatim or performs field
arithmetic, so exact rational arithmetic represents the "within
floating-point tolerance" comparisons of the spec as plain equality.
The bounding-box normalization path additionally distinguishes non-finite
doubles (`box.isEmpty()` on the `makeEmpty` infinities, `isFinite(min.x)`,
`Math.max`, `|| 1`, division); for it the file carries two models: a
rational one (`Box3`/`normalize`) for boxes whose components are all
finite, and an extended one (`XR`/`BoxX`/`normalizeX`) whose values are a
finite rational, `+Infinity`, `-Infinity` or `NaN`, with the IEEE
comparison/arithmetic behavior of exactly the operations this code path
performs (signed zeros are collapsed onto `0`, which none of these
operations distinguish on the values the pipeline feeds them).
-/

namespace Poser

/-- A 3-component vector (THREE.Vector3 values as used by the source). -/
structure Vec3 where
  x : ℚ
  y : ℚ
  z : ℚ
deriving DecidableEq, Repr

/-- A quaternion (THREE.Quaternion values as used by the source). -/
structure Quat where
  x : ℚ
  y : ℚ
  z : ℚ
  w : ℚ
deriving DecidableEq, Repr

/-- `BoneTransform` from `src/types` as produced/consumed in `Scene.tsx`:
`{ name, position, quaternion, scale }`. -/
structure BoneTransform where
  name : String
  position : Vec3
  quaternion : Quat
  scale : Vec3
deriving DecidableEq, Repr

/-- A live joint (`THREE.Bone`): its name and current local transform.
Only the fields that `getPose`/`setPose` read and write are modelled. -/
structure Bone where
  name : String
  position : Vec3
  quaternion : Quat
  scale : Vec3
deriving DecidableEq, Repr

/-- `getPose` of `Scene.tsx` (lines 253-260): map each live bone to a
`BoneTransform` copying name, position, quaternion and scale. -/
def getPose (bones : List Bone) : List BoneTransform :=
  bones.map fun b => ⟨b.name, b.position, b.quaternion, b.scale⟩

/-- One iteration of the `forEach` body of `setPose` (`Scene.tsx` 262-270):
`bones.find(b => b.name === t.name)` returns the FIRST bone whose name
matches; if found, its position/quaternion/scale are overwritten in place
(`updateMatrix` has no effect on the modelled fields); if not found the
entry is skipped silently. -/
def applyTransform (bones : List Bone) (t : BoneTransform) : List Bone :=
  match bones with
  | [] => []
  | b :: rest =>
    if b.name = t.name then
      { b with position := t.position, quaternion := t.quaternion, scale := t.scale } :: rest
    else
      b :: applyTransform rest t

/-- `setPose` of `Scene.tsx` (lines 261-271): `transforms.forEach(...)`,
applying each entry in order to the live bone list. -/
def setPose (bones : List Bone) (transforms : List BoneTransform) : List Bone :=
  transforms.foldl applyTransform bones

/-- `resetPose` of `Scene.tsx` (lines 272-282): identical loop to `setPose`
but driven by `initialPoseRef.current`, the pose captured at discovery time. -/
def resetPose (initialPose : List BoneTransform) (bones : List Bone) : List Bone :=
  setPose bones initialPose

/-- The initial-pose capture of `Scene.tsx` (lines 239-244): performed once
per scene, immediately after bone detection timing-wise, and mapping the
detected bones exactly as `getPose` does. -/
def captureInitialPose (bones : List Bone) : List BoneTransform :=
  bones.map fun b => ⟨b.name, b.position, b.quaternion, b.scale⟩

theorem captureInitialPose_eq_getPose (bones : List Bone) :
    captureInitialPose bones = getPose bones := rfl

/-! ### Basic lemmas about `applyTransform` and `setPose` -/

theorem applyTransform_map_name (bones : List Bone) (t : BoneTransform) :
    (applyTransform bones t).map Bone.name = bones.map Bone.name := by
  induction bones with
  | nil => rfl
  | cons b rest ih =>
    by_cases h : b.name = t.name
    · simp [applyTransform, h]
    · simp [applyTransform, h, ih]

theorem setPose_map_name (bones : List Bone) (ts : List BoneTransform) :
    (setPose bones ts).map Bone.name = bones.map Bone.name := by
  induction ts generalizing bones with
  | nil => rfl
  | cons t ts ih =>
    simp only [setPose, List.foldl_cons]
    rw [show (List.foldl applyTransform (applyTransform bones t) ts)
        = setPose (applyTransform bones t) ts from rfl, ih,
      applyTransform_map_name]

theorem applyTransform_cons_ne (b : Bone) (rest : List Bone) (t : BoneTransform)
    (h : b.name ≠ t.name) :
    applyTransform (b :: rest) t = b :: applyTransform rest t := by
  simp [applyTransform, h]

theorem applyTransform_not_found (bones : List Bone) (t : BoneTransform)
    (h : t.name ∉ bones.map Bone.name) :
    applyTransform bones t = bones := by
  induction bones with
  | nil => rfl
  | cons b rest ih =>
    simp only [List.map_cons, List.mem_cons] at h
    push_neg at h
    rw [applyTransform_cons_ne b rest t (fun hb => h.1 hb.symm), ih h.2]

theorem setPose_cons_skip (b : Bone) (rest : List Bone) (ts : List BoneTransform)
    (h : ∀ t ∈ ts, t.name ≠ b.name) :
    setPose (b :: rest) ts = b :: setPose rest ts := by
  induction ts generalizing rest with
  | nil => rfl
  | cons t ts ih =>
    simp only [setPose, List.foldl_cons]
    rw [applyTransform_cons_ne b rest t (fun hb => h t (List.mem_cons_self t ts) hb.symm)]
    exact ih (applyTransform rest t) (fun t' ht' => h t' (List.mem_cons_of_mem t ht'))

/-- Core restoration lemma: restoring a pose captured from `bones0` onto a
bone list `bs` with the same names in the same order rebuilds `bones0`
exactly, provided the names are pairwise distinct. -/
theorem setPose_getPose_of_names_eq (bones0 : List Bone) :
    ∀ bs : List Bone, bs.map Bone.name = bones0.map Bone.name →
      (bones0.map Bone.name).Nodup →
      setPose bs (getPose bones0) = bones0 := by
  induction bones0 with
  | nil =>
    intro bs hmap _
    have : bs = [] := by
      cases bs with
      | nil => rfl
      | cons b rest => simp at hmap
    subst this; rfl
  | cons b0 rest0 ih =>
    intro bs hmap hnd
    cases bs with
    | nil => simp at hmap
    | cons b rest =>
      simp only [List.map_cons, List.cons.injEq] at hmap
      obtain ⟨hname, htail⟩ := hmap
      simp only [List.map_cons, List.nodup_cons] at hnd
      obtain ⟨hb0, hndtail⟩ := hnd
      simp only [getPose, List.map_cons, setPose, List.foldl_cons]
      have happ : applyTransform (b :: rest) ⟨b0.name, b0.position, b0.quaternion, b0.scale⟩
          = b0 :: rest := by
        simp [applyTransform, hname]
      rw [happ]
      have hskip : ∀ t ∈ rest0.map (fun b => (⟨b.name, b.position, b.quaternion, b.scale⟩ :
          BoneTransform)), t.name ≠ b0.name := by
        intro t ht
        simp only [List.mem_map] at ht
        obtain ⟨bb, hbb, rfl⟩ := ht
        exact fun hEq => hb0 (hEq ▸ List.mem_map_of_mem Bone.name hbb)
      rw [show List.foldl applyTransform (b0 :: rest)
          (rest0.map fun b => (⟨b.name, b.position, b.quaternion, b.scale⟩ : BoneTransform))
          = setPose (b0 :: rest)
            (rest0.map fun b => (⟨b.name, b.position, b.quaternion, b.scale⟩ : BoneTransform))
          from rfl]
      rw [setPose_cons_skip b0 rest _ hskip]
      rw [show (rest0.map fun b => (⟨b.name, b.position, b.quaternion, b.scale⟩ : BoneTransform))
          = getPose rest0 from rfl]
      rw [ih rest htail hndtail]

theorem applyTransform_get?_ne (t : BoneTransform) :
    ∀ (bones : List Bone) (i : ℕ) (b : Bone), bones.get? i = some b →
      b.name ≠ t.name → (applyTransform bones t).get? i = some b := by
  intro bones
  induction bones with
  | nil => intro i b hb _; simp at hb
  | cons hd rest ih =>
    intro i b hb hne
    by_cases hhd : hd.name = t.name
    · simp only [applyTransform, if_pos hhd]
      cases i with
      | zero =>
        have hhd' : hd = b := by simpa using hb
        exact absurd (hhd' ▸ hhd) hne
      | succ j => simpa using hb
    · rw [applyTransform_cons_ne hd rest t hhd]
      cases i with
      | zero => simpa using hb
      | succ j =>
        simp only [List.get?] at hb ⊢
        exact ih j b hb hne

theorem setPose_get?_untouched (ts : List BoneTransform) :
    ∀ (bones : List Bone) (i : ℕ) (b : Bone), bones.get? i = some b →
      b.name ∉ ts.map BoneTransform.name →
      (setPose bones ts).get? i = some b := by
  induction ts with
  | nil => intro bones i b hb _; exact hb
  | cons t ts ih =>
    intro bones i b hb hname
    simp only [List.map_cons, List.mem_cons] at hname
    push_neg at hname
    have h1 : (applyTransform bones t).get? i = some b :=
      applyTransform_get?_ne t bones i b hb hname.1
    exact ih (applyTransform bones t) i b h1 hname.2

theorem foldl_setPose_map_name (ps : List (List BoneTransform)) :
    ∀ bones : List Bone, ((ps.foldl setPose bones).map Bone.name) = bones.map Bone.name := by
  induction ps with
  | nil => intro bones; rfl
  | cons ts ps ih =>
    intro bones
    simp only [List.foldl_cons]
    rw [ih (setPose bones ts), setPose_map_name]

/-! ### Concrete inputs used by witnesses and counterexamples -/

/-- Identity quaternion, as THREE initializes it. -/
def qId : Quat := ⟨0, 0, 0, 1⟩

/-- Unit scale. -/
def sOne : Vec3 := ⟨1, 1, 1⟩

/-- Two live bones SHARING the name "Hand" with different rest positions:
legal per the spec (names may collide, e.g. mirrored limbs). -/
def dupBones : List Bone :=
  [⟨"Hand", ⟨0, 0, 0⟩, qId, sOne⟩, ⟨"Hand", ⟨1, 0, 0⟩, qId, sOne⟩]

/-- Two live bones with distinct names. -/
def wBones : List Bone :=
  [⟨"Hips", ⟨0, 1, 0⟩, qId, sOne⟩, ⟨"Spine", ⟨0, 2, 0⟩, qId, sOne⟩]

/-- A pose entry addressing an existing bone. -/
def wT : BoneTransform := ⟨"Hips", ⟨3, 3, 3⟩, ⟨1, 0, 0, 0⟩, sOne⟩

/-- A pose entry addressing a bone name absent from `wBones`. -/
def ghostT : BoneTransform := ⟨"Tail", ⟨9, 9, 9⟩, qId, ⟨2, 2, 2⟩⟩

/-! ### C1: resetPose after arbitrary setPose calls -/

/-- C1 counterexample: with two live joints sharing one name (which the
spec itself permits), `resetPose` does NOT return `getPose` to the rest
snapshot even with ZERO intervening `setPose` calls: both entries of the
rest pose target the FIRST bone named "Hand", so it ends at the second
entry's transform and the claimed equality fails. -/
theorem resetPose_duplicate_names_ce :
    getPose (resetPose (captureInitialPose dupBones) dupBones)
      ≠ captureInitialPose dupBones := by
  decide

/-- C1 (amended): for an instance whose discovered joint names are pairwise
distinct, any finite sequence of `setPose` calls followed by `resetPose`
yields `getPose` equal to the rest pose captured at discovery. -/
theorem resetPose_restores_rest (bones : List Bone)
    (hnd : (bones.map Bone.name).Nodup) (ps : List (List BoneTransform)) :
    getPose (resetPose (captureInitialPose bones) (ps.foldl setPose bones))
      = captureInitialPose bones := by
  have hmap : ((ps.foldl setPose bones).map Bone.name) = bones.map Bone.name :=
    foldl_setPose_map_name ps bones
  have h := setPose_getPose_of_names_eq bones (ps.foldl setPose bones) hmap hnd
  rw [captureInitialPose_eq_getPose, resetPose, h]

theorem resetPose_restores_rest_witness :
    ((wBones.map Bone.name).Nodup) ∧
    getPose (resetPose (captureInitialPose wBones) ([[wT], [ghostT]].foldl setPose wBones))
      = captureInitialPose wBones :=
  ⟨by decide, resetPose_restores_rest wBones (by decide) [[wT], [ghostT]]⟩

/-! ### C2: capture/restore round trip -/

/-- C2 counterexample: with two live joints sharing the name "Hand",
`restore(capture(joints), joints)` followed by `capture(joints)` does not
return the original PoseState: both restore entries hit the first bone
named "Hand", which therefore ends at the second entry's transform. -/
theorem pose_roundtrip_duplicate_names_ce :
    getPose (setPose dupBones (getPose dupBones)) ≠ getPose dupBones := by
  decide

/-- C2 (amended): for a live joint set with pairwise-distinct names,
`restore(capture(joints), joints)` then `capture(joints)` returns exactly
the captured PoseState. -/
theorem pose_roundtrip (bones : List Bone)
    (hnd : (bones.map Bone.name).Nodup) :
    getPose (setPose bones (getPose bones)) = getPose bones := by
  rw [setPose_getPose_of_names_eq bones bones rfl hnd]

theorem pose_roundtrip_witness :
    ((wBones.map Bone.name).Nodup) ∧
    getPose (setPose wBones (getPose wBones)) = getPose wBones :=
  ⟨by decide, pose_roundtrip wBones (by decide)⟩

/-! ### C6: restore never fails -/

/-- C6: `setPose` is total and never errors: the empty PoseState is a
no-op; a PoseState whose single entry names no live joint leaves the bone
list unchanged; and any live joint whose name appears in no entry keeps
its exact prior position, orientation and scale (stated positionally via
`get?`, so same-named duplicates are covered individually). -/
theorem setPose_never_fails (bones : List Bone) (ts : List BoneTransform) :
    setPose bones [] = bones ∧
    (∀ t : BoneTransform, t.name ∉ bones.map Bone.name → setPose bones [t] = bones) ∧
    (∀ (i : ℕ) (b : Bone), bones.get? i = some b →
      b.name ∉ ts.map BoneTransform.name → (setPose bones ts).get? i = some b) := by
  refine ⟨rfl, ?_, ?_⟩
  · intro t ht
    show applyTransform bones t = bones
    exact applyTransform_not_found bones t ht
  · intro i b hb hname
    exact setPose_get?_untouched ts bones i b hb hname

theorem setPose_never_fails_witness :
    (ghostT.name ∉ wBones.map Bone.name) ∧
    (wBones.get? 1 = some ⟨"Spine", ⟨0, 2, 0⟩, qId, sOne⟩) ∧
    ((⟨"Spine", ⟨0, 2, 0⟩, qId, sOne⟩ : Bone).name ∉ [wT, ghostT].map BoneTransform.name) ∧
    setPose wBones [] = wBones ∧
    setPose wBones [ghostT] = wBones ∧
    (setPose wBones [wT, ghostT]).get? 1 = some ⟨"Spine", ⟨0, 2, 0⟩, qId, sOne⟩ :=
  ⟨by decide, by decide, by decide,
    (setPose_never_fails wBones [wT, ghostT]).1,
    (setPose_never_fails wBones [ghostT]).2.1 ghostT (by decide),
    (setPose_never_fails wBones [wT, ghostT]).2.2 1 ⟨"Spine", ⟨0, 2, 0⟩, qId, sOne⟩
      (by decide) (by decide)⟩

/-! ### Normalization, rational model (`Scene.tsx` `Model` `useMemo`, lines 95-154)

The measurement of the bounding box itself (traversing meshes,
`expandByObject`, `setFromObject`) is performed by the three.js library on
mesh geometry and is outside the scope of the claims; the embedding takes
the measured box as input, exactly as the code at line 129 receives it.
This first model restricts the box components to finite doubles (exact
rationals) — the domain of the centering/scaling guarantee, which assumes
a non-degenerate measured box. On this domain the `isFinite(box.min.x)`
test of line 129 is `true`; it is kept as a boolean parameter `minXFinite`
so the guard keeps the source's shape. A fresh `Box3` is "empty"
(`makeEmpty` sets min = +∞, max = -∞, and `isEmpty()` tests `max < min`
per component); over finite components, emptiness is any box with
`max < min` in some component. The full behavior on non-finite components
(`makeEmpty` infinities, NaN geometry, infinite extents) is modelled
separately below by `normalizeX` over IEEE-style extended values. -/

/-- An axis-aligned box, as THREE.Box3 (min/max corners). -/
structure Box3 where
  min : Vec3
  max : Vec3
deriving DecidableEq, Repr

/-- THREE.Box3.isEmpty(): `max.x < min.x || max.y < min.y || max.z < min.z`. -/
def Box3.isEmpty (b : Box3) : Bool :=
  decide (b.max.x < b.min.x) || decide (b.max.y < b.min.y) || decide (b.max.z < b.min.z)

/-- THREE.Box3.getSize(): zero vector on an empty box, else `max - min`. -/
def Box3.getSize (b : Box3) : Vec3 :=
  if b.isEmpty then ⟨0, 0, 0⟩
  else ⟨b.max.x - b.min.x, b.max.y - b.min.y, b.max.z - b.min.z⟩

/-- THREE.Box3.getCenter(): zero vector on an empty box, else `(min+max)/2`. -/
def Box3.getCenter (b : Box3) : Vec3 :=
  if b.isEmpty then ⟨0, 0, 0⟩
  else ⟨(b.min.x + b.max.x) / 2, (b.min.y + b.max.y) / 2, (b.min.z + b.max.z) / 2⟩

/-- The fixed default box substituted at `Scene.tsx` lines 129-132:
`min = (-0.5, 0, -0.5)`, `max = (0.5, 1.8, 0.5)`. -/
def defaultBox : Box3 := ⟨⟨-(1/2), 0, -(1/2)⟩, ⟨1/2, 9/5, 1/2⟩⟩

/-- The guard of `Scene.tsx` line 129:
`if (box.isEmpty() || !isFinite(box.min.x))` replace the box by the fixed
default box. `minXFinite` is the oracle for `isFinite(box.min.x)`. -/
def guardBox (box : Box3) (minXFinite : Bool) : Box3 :=
  if box.isEmpty || !minXFinite then defaultBox else box

/-- `targetSize = 2.5` (`Scene.tsx` line 141). -/
def targetSize : ℚ := 5/2

/-- The root transform the normalization applies: uniform scale plus
translation (`clone.scale.set`, `clone.position.{x,y,z}`). -/
structure NormResult where
  scaleFactor : ℚ
  position : Vec3
deriving DecidableEq, Repr

/-- The max dimension of a measured (post-guard) box:
`Math.max(size.x, size.y, size.z)` at `Scene.tsx` line 140, before the
`|| 1` falsy guard. -/
def maxDim0 (b : Box3) : ℚ :=
  max (b.getSize).x (max (b.getSize).y (b.getSize).z)

/-- The normalization math of `Scene.tsx` lines 128-149: guard the measured
box, compute size/center, `maxDim = Math.max(...) || 1` (JS `|| 1` replaces
a zero — or NaN, unrepresentable in ℚ — max dimension by 1),
`scaleFactor = targetSize / maxDim`, uniform scale, and translation
`(-center.x*s, -box.min.y*s, -center.z*s)`. -/
def normalize (box : Box3) (minXFinite : Bool) : NormResult :=
  let b := guardBox box minXFinite
  let center := b.getCenter
  let md0 := maxDim0 b
  let maxDim := if md0 = 0 then 1 else md0
  let scaleFactor := targetSize / maxDim
  { scaleFactor := scaleFactor,
    position := ⟨-center.x * scaleFactor, -b.min.y * scaleFactor, -center.z * scaleFactor⟩ }

/-- The rest-pose bounding box of the asset after the root transform
`(s, p)` is applied: a uniform strictly positive scale followed by a
translation maps a box corner-to-corner, so the transformed box is
`s • b + p` componentwise. -/
def transformBox (b : Box3) (s : ℚ) (p : Vec3) : Box3 :=
  ⟨⟨s * b.min.x + p.x, s * b.min.y + p.y, s * b.min.z + p.z⟩,
   ⟨s * b.max.x + p.x, s * b.max.y + p.y, s * b.max.z + p.z⟩⟩

theorem defaultBox_isEmpty : defaultBox.isEmpty = false := by
  simp only [defaultBox, Box3.isEmpty, Bool.or_eq_false_iff, decide_eq_false_iff_not, not_lt]
  norm_num

theorem guardBox_not_empty (box : Box3) (mf : Bool) :
    (guardBox box mf).isEmpty = false := by
  unfold guardBox
  by_cases h : box.isEmpty || !mf
  · simp only [h, if_true]
    exact defaultBox_isEmpty
  · simp only [h, if_false]
    simp only [Bool.or_eq_true, Bool.not_eq_true'] at h
    push_neg at h
    exact Bool.eq_false_iff.mpr fun hc => h.1 hc

theorem maxDim0_nonneg (b : Box3) (h : b.isEmpty = false) : 0 ≤ maxDim0 b := by
  unfold maxDim0 Box3.getSize
  rw [h]
  simp only [Bool.false_eq_true, if_false]
  unfold Box3.isEmpty at h
  simp only [Bool.or_eq_false_iff, decide_eq_false_iff_not, not_lt] at h
  obtain ⟨⟨hx, hy⟩, hz⟩ := h
  have : (0:ℚ) ≤ b.max.x - b.min.x := by linarith
  exact le_trans this (le_max_left _ _)

theorem box_bounds_of_not_empty (b : Box3) (h : b.isEmpty = false) :
    b.min.x ≤ b.max.x ∧ b.min.y ≤ b.max.y ∧ b.min.z ≤ b.max.z := by
  unfold Box3.isEmpty at h
  simp only [Bool.or_eq_false_iff, decide_eq_false_iff_not, not_lt] at h
  exact ⟨h.1.1, h.1.2, h.2⟩

/-! ### C4: the normalized rest-pose bounding box -/

/-- C4: for a measured box that is non-empty, finite and of nonzero max
dimension, the root receives uniform scale `targetSize / maxDim` and the
translation `(-center.x*s, -box.min.y*s, -center.z*s)`, and the resulting
rest-pose bounding box is centered at the origin on X and Z, floor-aligned
(`min.y = 0`), and has max dimension exactly `targetSize = 2.5`. -/
theorem normalize_centered (box : Box3) (hne : box.isEmpty = false)
    (hmd : maxDim0 box ≠ 0) :
    (normalize box true).scaleFactor = targetSize / maxDim0 box ∧
    (normalize box true).position =
      ⟨-(box.getCenter).x * (normalize box true).scaleFactor,
       -box.min.y * (normalize box true).scaleFactor,
       -(box.getCenter).z * (normalize box true).scaleFactor⟩ ∧
    ((transformBox box (normalize box true).scaleFactor
        (normalize box true).position).getCenter).x = 0 ∧
    ((transformBox box (normalize box true).scaleFactor
        (normalize box true).position).getCenter).z = 0 ∧
    (transformBox box (normalize box true).scaleFactor
        (normalize box true).position).min.y = 0 ∧
    maxDim0 (transformBox box (normalize box true).scaleFactor
        (normalize box true).position) = targetSize := by
  obtain ⟨hx, hy, hz⟩ := box_bounds_of_not_empty box hne
  have hguard : guardBox box true = box := by
    simp [guardBox, hne]
  have hmdpos : 0 < maxDim0 box :=
    lt_of_le_of_ne (maxDim0_nonneg box hne) (Ne.symm hmd)
  have hsf : (normalize box true).scaleFactor = targetSize / maxDim0 box := by
    simp only [normalize, hguard, if_neg hmd]
  have hsfpos : 0 < (normalize box true).scaleFactor := by
    rw [hsf]
    exact div_pos (by norm_num [targetSize]) hmdpos
  have hpos : (normalize box true).position =
      ⟨-(box.getCenter).x * (normalize box true).scaleFactor,
       -box.min.y * (normalize box true).scaleFactor,
       -(box.getCenter).z * (normalize box true).scaleFactor⟩ := by
    simp only [normalize, hguard]
  set s := (normalize box true).scaleFactor with hs
  have hcenter : box.getCenter =
      ⟨(box.min.x + box.max.x) / 2, (box.min.y + box.max.y) / 2,
       (box.min.z + box.max.z) / 2⟩ := by
    simp [Box3.getCenter, hne]
  have htb_ne : (transformBox box s (normalize box true).position).isEmpty = false := by
    unfold Box3.isEmpty transformBox
    simp only [Bool.or_eq_false_iff, decide_eq_false_iff_not, not_lt]
    refine ⟨⟨?_, ?_⟩, ?_⟩ <;> nlinarith [hsfpos.le]
  have htb_center : (transformBox box s (normalize box true).position).getCenter =
      ⟨((transformBox box s (normalize box true).position).min.x
          + (transformBox box s (normalize box true).position).max.x) / 2,
       ((transformBox box s (normalize box true).position).min.y
          + (transformBox box s (normalize box true).position).max.y) / 2,
       ((transformBox box s (normalize box true).position).min.z
          + (transformBox box s (normalize box true).position).max.z) / 2⟩ := by
    simp [Box3.getCenter, htb_ne]
  refine ⟨hsf, hpos, ?_, ?_, ?_, ?_⟩
  · rw [htb_center]
    simp only [transformBox, hpos, hcenter]
    ring
  · rw [htb_center]
    simp only [transformBox, hpos, hcenter]
    ring
  · simp only [transformBox, hpos]
    ring
  · unfold maxDim0 Box3.getSize
    rw [htb_ne]
    simp only [Bool.false_eq_true, if_false, transformBox]
    have hsize : ∀ a p : ℚ, s * a + p - (s * a - s * (a - a) + p) = 0 := by intro a p; ring
    have h1 : s * box.max.x + (normalize box true).position.x
        - (s * box.min.x + (normalize box true).position.x) = s * (box.max.x - box.min.x) := by
      ring
    have h2 : s * box.max.y + (normalize box true).position.y
        - (s * box.min.y + (normalize box true).position.y) = s * (box.max.y - box.min.y) := by
      ring
    have h3 : s * box.max.z + (normalize box true).position.z
        - (s * box.min.z + (normalize box true).position.z) = s * (box.max.z - box.min.z) := by
      ring
    rw [h1, h2, h3, ← mul_max_of_nonneg _ _ hsfpos.le, ← mul_max_of_nonneg _ _ hsfpos.le]
    have hmax : max (box.max.x - box.min.x)
        (max (box.max.y - box.min.y) (box.max.z - box.min.z)) = maxDim0 box := by
      unfold maxDim0 Box3.getSize
      rw [hne]
      simp
    rw [hmax, hsf, div_mul_cancel₀ _ hmd]

/-- Witness for C4 at the concrete box `min = (1, 2, 3)`, `max = (2, 4, 4)`
(sizes `(1, 2, 1)`, max dimension `2`, scale `5/4`). -/
theorem normalize_centered_witness :
    ((⟨⟨1, 2, 3⟩, ⟨2, 4, 4⟩⟩ : Box3).isEmpty = false) ∧
    (maxDim0 ⟨⟨1, 2, 3⟩, ⟨2, 4, 4⟩⟩ ≠ 0) ∧
    (normalize ⟨⟨1, 2, 3⟩, ⟨2, 4, 4⟩⟩ true).scaleFactor
      = targetSize / maxDim0 ⟨⟨1, 2, 3⟩, ⟨2, 4, 4⟩⟩ ∧
    maxDim0 (transformBox ⟨⟨1, 2, 3⟩, ⟨2, 4, 4⟩⟩
      (normalize ⟨⟨1, 2, 3⟩, ⟨2, 4, 4⟩⟩ true).scaleFactor
      (normalize ⟨⟨1, 2, 3⟩, ⟨2, 4, 4⟩⟩ true).position) = targetSize := by
  have h1 : ((⟨⟨1, 2, 3⟩, ⟨2, 4, 4⟩⟩ : Box3).isEmpty = false) := by
    decide
  have h2 : (maxDim0 ⟨⟨1, 2, 3⟩, ⟨2, 4, 4⟩⟩ ≠ 0) := by
    norm_num [maxDim0, Box3.getSize, Box3.isEmpty, max_def]
  have h := normalize_centered ⟨⟨1, 2, 3⟩, ⟨2, 4, 4⟩⟩ h1 h2
  exact ⟨h1, h2, h.1, h.2.2.2.2.2⟩

/-! ### Normalization, extended IEEE model (`Scene.tsx` lines 95-154)

The same pipeline over extended values, covering the non-finite doubles
the rational model cannot express: the `makeEmpty` infinities of a box no
mesh ever expanded, NaN geometry, and infinite extents. Each value is a
finite rational, `+Infinity`, `-Infinity` or `NaN`; the operations below
carry the IEEE behavior of exactly the operations this code path performs
(`<` comparisons are false on NaN, `Math.max` propagates NaN, `|| 1`
treats `0` and `NaN` as falsy, `2.5 / Infinity` is a zero,
`2.5 / 0` is `+Infinity`). Signed zeros are collapsed onto `0`: none of
the operations in this path branch on the sign of a zero. -/

/-- An IEEE double as this code path distinguishes them. -/
inductive XR where
  | fin (q : ℚ)
  | posInf
  | negInf
  | nan
deriving DecidableEq, Repr

/-- IEEE `<` as used by `Box3.isEmpty`: any comparison with NaN is false. -/
def XR.lt : XR → XR → Bool
  | XR.nan, _ => false
  | _, XR.nan => false
  | XR.fin a, XR.fin b => decide (a < b)
  | XR.fin _, XR.posInf => true
  | XR.fin _, XR.negInf => false
  | XR.posInf, _ => false
  | XR.negInf, XR.negInf => false
  | XR.negInf, _ => true

/-- IEEE subtraction (used by `getSize`: `max - min`). -/
def XR.sub : XR → XR → XR
  | XR.nan, _ => XR.nan
  | _, XR.nan => XR.nan
  | XR.fin a, XR.fin b => XR.fin (a - b)
  | XR.fin _, XR.posInf => XR.negInf
  | XR.fin _, XR.negInf => XR.posInf
  | XR.posInf, XR.fin _ => XR.posInf
  | XR.negInf, XR.fin _ => XR.negInf
  | XR.posInf, XR.posInf => XR.nan
  | XR.posInf, XR.negInf => XR.posInf
  | XR.negInf, XR.posInf => XR.negInf
  | XR.negInf, XR.negInf => XR.nan

/-- IEEE addition (used by `getCenter`: `min + max`). -/
def XR.add : XR → XR → XR
  | XR.nan, _ => XR.nan
  | _, XR.nan => XR.nan
  | XR.fin a, XR.fin b => XR.fin (a + b)
  | XR.fin _, XR.posInf => XR.posInf
  | XR.fin _, XR.negInf => XR.negInf
  | XR.posInf, XR.fin _ => XR.posInf
  | XR.negInf, XR.fin _ => XR.negInf
  | XR.posInf, XR.posInf => XR.posInf
  | XR.posInf, XR.negInf => XR.nan
  | XR.negInf, XR.posInf => XR.nan
  | XR.negInf, XR.negInf => XR.negInf

/-- IEEE multiplication (used by `getCenter`'s `* 0.5` and the position
products); `0 * Infinity` is NaN. -/
def XR.mul : XR → XR → XR
  | XR.nan, _ => XR.nan
  | _, XR.nan => XR.nan
  | XR.fin a, XR.fin b => XR.fin (a * b)
  | XR.fin a, XR.posInf =>
    if a = 0 then XR.nan else if 0 < a then XR.posInf else XR.negInf
  | XR.fin a, XR.negInf =>
    if a = 0 then XR.nan else if 0 < a then XR.negInf else XR.posInf
  | XR.posInf, XR.fin b =>
    if b = 0 then XR.nan else if 0 < b then XR.posInf else XR.negInf
  | XR.negInf, XR.fin b =>
    if b = 0 then XR.nan else if 0 < b then XR.negInf else XR.posInf
  | XR.posInf, XR.posInf => XR.posInf
  | XR.posInf, XR.negInf => XR.negInf
  | XR.negInf, XR.posInf => XR.negInf
  | XR.negInf, XR.negInf => XR.posInf

/-- IEEE negation (the `-center.x`, `-box.min.y` of lines 147-149). -/
def XR.neg : XR → XR
  | XR.fin a => XR.fin (-a)
  | XR.posInf => XR.negInf
  | XR.negInf => XR.posInf
  | XR.nan => XR.nan

/-- IEEE division as `scaleFactor = targetSize / maxDim` uses it:
finite over zero is a signed infinity, finite over infinity is a zero,
`0 / 0` and infinity over infinity are NaN. -/
def XR.div : XR → XR → XR
  | XR.nan, _ => XR.nan
  | _, XR.nan => XR.nan
  | XR.fin a, XR.fin b =>
    if b = 0 then (if a = 0 then XR.nan else if 0 < a then XR.posInf else XR.negInf)
    else XR.fin (a / b)
  | XR.fin _, XR.posInf => XR.fin 0
  | XR.fin _, XR.negInf => XR.fin 0
  | XR.posInf, XR.fin b => if 0 ≤ b then XR.posInf else XR.negInf
  | XR.negInf, XR.fin b => if 0 ≤ b then XR.negInf else XR.posInf
  | XR.posInf, _ => XR.nan
  | XR.negInf, _ => XR.nan

/-- JS `Math.max` of two values: NaN if either argument is NaN. -/
def XR.jsMax : XR → XR → XR
  | XR.nan, _ => XR.nan
  | _, XR.nan => XR.nan
  | XR.posInf, _ => XR.posInf
  | _, XR.posInf => XR.posInf
  | XR.negInf, y => y
  | x, XR.negInf => x
  | XR.fin a, XR.fin b => XR.fin (max a b)

/-- JS `isFinite`: true exactly on finite values. -/
def XR.isFinite : XR → Bool
  | XR.fin _ => true
  | _ => false

/-- JS falsiness of a number (the `|| 1` of line 140): `0` (either sign,
collapsed here) and `NaN` are falsy. -/
def XR.isFalsy : XR → Bool
  | XR.fin q => decide (q = 0)
  | XR.nan => true
  | _ => false

/-- Finite and strictly positive (the property C3 asserts of the scale). -/
def XR.isStrictPos : XR → Bool
  | XR.fin q => decide (0 < q)
  | _ => false

/-- A 3-vector of extended values. -/
structure VecX where
  x : XR
  y : XR
  z : XR
deriving DecidableEq, Repr

/-- A THREE.Box3 with extended components. -/
structure BoxX where
  min : VecX
  max : VecX
deriving DecidableEq, Repr

/-- `Box3.isEmpty()` over extended values: `max < min` in some component,
with IEEE comparisons (so a NaN component never makes a box "empty"). -/
def BoxX.isEmpty (b : BoxX) : Bool :=
  XR.lt b.max.x b.min.x || XR.lt b.max.y b.min.y || XR.lt b.max.z b.min.z

/-- `Box3.getSize()` over extended values. -/
def BoxX.getSize (b : BoxX) : VecX :=
  if b.isEmpty then ⟨XR.fin 0, XR.fin 0, XR.fin 0⟩
  else ⟨XR.sub b.max.x b.min.x, XR.sub b.max.y b.min.y, XR.sub b.max.z b.min.z⟩

/-- `Box3.getCenter()` over extended values: `(min + max) * 0.5`. -/
def BoxX.getCenter (b : BoxX) : VecX :=
  if b.isEmpty then ⟨XR.fin 0, XR.fin 0, XR.fin 0⟩
  else ⟨XR.mul (XR.add b.min.x b.max.x) (XR.fin (1/2)),
        XR.mul (XR.add b.min.y b.max.y) (XR.fin (1/2)),
        XR.mul (XR.add b.min.z b.max.z) (XR.fin (1/2))⟩

/-- All six components finite. -/
def VecX.allFinite (v : VecX) : Bool :=
  v.x.isFinite && v.y.isFinite && v.z.isFinite

def BoxX.allFinite (b : BoxX) : Bool :=
  b.min.allFinite && b.max.allFinite

/-- The fixed default box of lines 130-131 over extended values. -/
def defaultBoxX : BoxX :=
  ⟨⟨XR.fin (-(1/2)), XR.fin 0, XR.fin (-(1/2))⟩,
   ⟨XR.fin (1/2), XR.fin (9/5), XR.fin (1/2)⟩⟩

/-- The guard of line 129 with the `isFinite(box.min.x)` test itself
modelled: replace the box when it is empty OR its `min.x` is non-finite.
A box that is neither — even one with an infinite or NaN extent in
another component — passes through untouched. -/
def guardBoxX (box : BoxX) : BoxX :=
  if box.isEmpty || !box.min.x.isFinite then defaultBoxX else box

/-- The root transform over extended values. -/
structure NormResultX where
  scaleFactor : XR
  position : VecX
deriving DecidableEq, Repr

/-- The normalization math of lines 128-149 over extended values:
`maxDim = Math.max(size.x, size.y, size.z) || 1` (NaN and `0` are falsy),
`scaleFactor = targetSize / maxDim`, and the translation
`(-center.x*s, -box.min.y*s, -center.z*s)`. -/
def normalizeX (box : BoxX) : NormResultX :=
  let b := guardBoxX box
  let size := b.getSize
  let center := b.getCenter
  let md0 := XR.jsMax size.x (XR.jsMax size.y size.z)
  let maxDim := if md0.isFalsy then XR.fin 1 else md0
  let scaleFactor := XR.div (XR.fin targetSize) maxDim
  { scaleFactor := scaleFactor,
    position := ⟨XR.mul (XR.neg center.x) scaleFactor,
                 XR.mul (XR.neg b.min.y) scaleFactor,
                 XR.mul (XR.neg center.z) scaleFactor⟩ }

theorem xr_isFinite_iff (x : XR) : x.isFinite = true ↔ ∃ q, x = XR.fin q := by
  cases x <;> simp [XR.isFinite]

theorem defaultBoxX_isEmpty : defaultBoxX.isEmpty = false := by
  simp only [defaultBoxX, BoxX.isEmpty, XR.lt, Bool.or_eq_false_iff,
    decide_eq_false_iff_not, not_lt]
  norm_num

theorem guardBoxX_not_empty (box : BoxX) : (guardBoxX box).isEmpty = false := by
  unfold guardBoxX
  by_cases h : box.isEmpty || !box.min.x.isFinite
  · simp only [h, if_true]
    exact defaultBoxX_isEmpty
  · simp only [h, if_false]
    simp only [Bool.or_eq_true, Bool.not_eq_true'] at h
    push_neg at h
    exact Bool.eq_false_iff.mpr fun hc => h.1 hc

/-- On an all-finite non-empty box, the divisor expression of `normalizeX`
is a strictly positive rational and the scale is `targetSize / m`. -/
theorem scale_of_finite_box (g : BoxX) (hfin : g.allFinite = true)
    (hne : g.isEmpty = false) :
    ∃ m : ℚ, 0 < m ∧
      XR.div (XR.fin targetSize)
        (if (XR.jsMax (g.getSize).x (XR.jsMax (g.getSize).y (g.getSize).z)).isFalsy
         then XR.fin 1
         else XR.jsMax (g.getSize).x (XR.jsMax (g.getSize).y (g.getSize).z))
        = XR.fin (targetSize / m) := by
  obtain ⟨⟨mx, my, mz⟩, ⟨Mx, My, Mz⟩⟩ := g
  simp only [BoxX.allFinite, VecX.allFinite, Bool.and_eq_true] at hfin
  obtain ⟨⟨⟨hf1, hf2⟩, hf3⟩, ⟨hf4, hf5⟩, hf6⟩ := hfin
  obtain ⟨a, rfl⟩ := (xr_isFinite_iff _).mp hf1
  obtain ⟨b, rfl⟩ := (xr_isFinite_iff _).mp hf2
  obtain ⟨c, rfl⟩ := (xr_isFinite_iff _).mp hf3
  obtain ⟨d, rfl⟩ := (xr_isFinite_iff _).mp hf4
  obtain ⟨e, rfl⟩ := (xr_isFinite_iff _).mp hf5
  obtain ⟨f, rfl⟩ := (xr_isFinite_iff _).mp hf6
  have hbounds : a ≤ d ∧ b ≤ e ∧ c ≤ f := by
    have h := hne
    simp only [BoxX.isEmpty, XR.lt, Bool.or_eq_false_iff,
      decide_eq_false_iff_not, not_lt] at h
    exact ⟨h.1.1, h.1.2, h.2⟩
  have hsize : BoxX.getSize ⟨⟨XR.fin a, XR.fin b, XR.fin c⟩, ⟨XR.fin d, XR.fin e, XR.fin f⟩⟩
      = ⟨XR.fin (d - a), XR.fin (e - b), XR.fin (f - c)⟩ := by
    unfold BoxX.getSize
    rw [hne]
    simp [XR.sub]
  rw [hsize]
  simp only [XR.jsMax, XR.isFalsy]
  set M := max (d - a) (max (e - b) (f - c)) with hM
  have hMnn : 0 ≤ M := by
    have : (0:ℚ) ≤ d - a := by linarith [hbounds.1]
    exact le_trans this (le_max_left _ _)
  by_cases h0 : M = 0
  · rw [if_pos (by simpa using h0)]
    refine ⟨1, one_pos, ?_⟩
    simp [XR.div]
  · rw [if_neg (by simpa using h0)]
    refine ⟨M, lt_of_le_of_ne hMnn (Ne.symm h0), ?_⟩
    simp [XR.div, h0]

/-- A measured box with finite `min.x` and an infinite Y extent: produced
by geometry containing an infinite coordinate. -/
def infBox : BoxX :=
  ⟨⟨XR.fin 0, XR.fin 0, XR.fin 0⟩, ⟨XR.fin 1, XR.posInf, XR.fin 1⟩⟩

/-- C3 counterexample: the box `min = (0,0,0)`, `max = (1, +∞, 1)` passes
the guard of line 129 — it is not "empty" (IEEE `∞ < 0` is false) and its
`min.x` is finite — yet `maxDim = Math.max(1, ∞, 1) = ∞` is truthy, so
`scaleFactor = 2.5 / ∞ = +0`: finite but NOT strictly positive, refuting
the claim on the non-finite-box domain it explicitly includes. -/
theorem normalize_infinite_extent_ce :
    infBox.isEmpty = false ∧
    infBox.min.x.isFinite = true ∧
    (normalizeX infBox).scaleFactor = XR.fin 0 ∧
    (normalizeX infBox).scaleFactor.isStrictPos = false := by
  refine ⟨by decide, by decide, by decide, by decide⟩

/-- The `makeEmpty` box a zero-renderable-node asset can measure:
`min = +∞`, `max = -∞`. -/
def makeEmptyBoxX : BoxX :=
  ⟨⟨XR.posInf, XR.posInf, XR.posInf⟩, ⟨XR.negInf, XR.negInf, XR.negInf⟩⟩

/-- A box whose `min.x` is NaN (non-finite), caught by the guard. -/
def nanMinBoxX : BoxX :=
  ⟨⟨XR.nan, XR.fin 0, XR.fin 0⟩, ⟨XR.fin 1, XR.fin 1, XR.fin 1⟩⟩

/-- A zero-extent (point) box: the `|| 1` guard supplies the divisor. -/
def pointBoxX : BoxX :=
  ⟨⟨XR.fin 2, XR.fin 3, XR.fin 4⟩, ⟨XR.fin 2, XR.fin 3, XR.fin 4⟩⟩

/-- C3 (amended): whenever the guard fires (empty box or non-finite
`min.x` — then the divisor is the default box's max dimension `9/5`,
scale `25/18`) or the measured box has all components finite (then a zero
max dimension is guarded to `1`, giving scale `targetSize`), the scale
factor is finite and strictly positive and no division by zero or NaN
scale occurs. A box passing the guard with an infinite extent instead
yields scale `+0` (see the counterexample), so strict positivity holds
exactly on this guarded-or-all-finite domain. -/
theorem normalize_scale_finite_pos (box : BoxX)
    (hfin : (guardBoxX box).allFinite = true) :
    (normalizeX box).scaleFactor.isFinite = true ∧
    (normalizeX box).scaleFactor.isStrictPos = true ∧
    (normalizeX makeEmptyBoxX).scaleFactor = XR.fin (25/18) ∧
    (normalizeX nanMinBoxX).scaleFactor = XR.fin (25/18) ∧
    (normalizeX pointBoxX).scaleFactor = XR.fin targetSize := by
  obtain ⟨m, hm, heq⟩ :=
    scale_of_finite_box (guardBoxX box) hfin (guardBoxX_not_empty box)
  have hsf : (normalizeX box).scaleFactor = XR.fin (targetSize / m) := heq
  refine ⟨?_, ?_, ?_, ?_, ?_⟩
  · rw [hsf]
    rfl
  · rw [hsf]
    simp only [XR.isStrictPos, decide_eq_true_eq]
    exact div_pos (by norm_num [targetSize]) hm
  · norm_num [normalizeX, guardBoxX, makeEmptyBoxX, defaultBoxX, BoxX.isEmpty,
      BoxX.getSize, XR.lt, XR.sub, XR.jsMax, XR.isFalsy, XR.isFinite, XR.div,
      targetSize, max_def]
  · norm_num [normalizeX, guardBoxX, nanMinBoxX, defaultBoxX, BoxX.isEmpty,
      BoxX.getSize, XR.lt, XR.sub, XR.jsMax, XR.isFalsy, XR.isFinite, XR.div,
      targetSize, max_def]
  · norm_num [normalizeX, guardBoxX, pointBoxX, defaultBoxX, BoxX.isEmpty,
      BoxX.getSize, XR.lt, XR.sub, XR.jsMax, XR.isFalsy, XR.isFinite, XR.div,
      targetSize, max_def]

/-- A fully finite measured box (the common case). -/
def finBoxX : BoxX :=
  ⟨⟨XR.fin 1, XR.fin 2, XR.fin 3⟩, ⟨XR.fin 2, XR.fin 4, XR.fin 4⟩⟩

theorem normalize_scale_finite_pos_witness :
    ((guardBoxX finBoxX).allFinite = true) ∧
    (normalizeX finBoxX).scaleFactor.isFinite = true ∧
    (normalizeX finBoxX).scaleFactor.isStrictPos = true :=
  ⟨by decide, (normalize_scale_finite_pos finBoxX (by decide)).1,
    (normalize_scale_finite_pos finBoxX (by decide)).2.1⟩

/-! ### Skeleton discovery (`Scene.tsx` `useLayoutEffect`, lines 207-248)

`scene.traverse` visits a node, then recursively each child in order
(pre-order, depth-first). For every node that is a `THREE.Bone`, the code
pushes a descriptor whose `depth` is computed by the loop
`while (parent && parent instanceof Bone) { depth++; parent = parent.parent }`.
The embedding carries the kinds of the ancestors (nearest first) down the
traversal; the while loop then reads that list front-to-back. -/

/-- Node kind tag: `THREE.Bone`, a plain `Object3D`/`Group`, or a mesh. -/
inductive NodeKind where
  | bone
  | group
  | mesh
deriving DecidableEq, Repr

/-- A scene-graph node: type tag, name, ordered children. -/
inductive SceneNode where
  | mk (kind : NodeKind) (name : String) (children : List SceneNode)

/-- The depth while-loop of `Scene.tsx` lines 217-222 over the ancestor
kinds (nearest ancestor first): count while the ancestor is a Bone, stop at
the first non-Bone ancestor or at the end of the chain (the root). -/
def boneDepth : List NodeKind → ℕ
  | NodeKind.bone :: rest => boneDepth rest + 1
  | _ => 0

mutual
/-- `scene.traverse` restricted to the bone-descriptor collection of
`Scene.tsx` lines 213-230, parametric in the depth function `d` applied to
the ancestor-kind chain: visit the node (emitting `(name, d ancestors)` if
it is a Bone), then the children in order. -/
def collectBonesWith (d : List NodeKind → ℕ) : SceneNode → List NodeKind → List (String × ℕ)
  | SceneNode.mk k n cs, anc =>
    (if k = NodeKind.bone then [(n, d anc)] else []) ++ collectListWith d cs (k :: anc)

/-- Pre-order traversal of a child list (helper of `collectBonesWith`). -/
def collectListWith (d : List NodeKind → ℕ) : List SceneNode → List NodeKind → List (String × ℕ)
  | [], _ => []
  | c :: cs, anc => collectBonesWith d c anc ++ collectListWith d cs anc
end

/-- The bone discovery of `Scene.tsx`: traversal with the while-loop depth. -/
def collectBones (n : SceneNode) : List (String × ℕ) :=
  collectBonesWith boneDepth n []

/-- Modelled from the spec wording of C5: depth = length of the maximal
prefix of consecutive joint-typed ancestors of the chain (nearest first). -/
def specDepth (anc : List NodeKind) : ℕ :=
  (anc.takeWhile fun k => k == NodeKind.bone).length

/-- The chain `root → Hips(joint) → Spine(joint) → Spine1(joint)` of the
spec's depth example, with a non-joint root. -/
def chainExample : SceneNode :=
  SceneNode.mk NodeKind.group "root"
    [SceneNode.mk NodeKind.bone "Hips"
      [SceneNode.mk NodeKind.bone "Spine"
        [SceneNode.mk NodeKind.bone "Spine1" []]]]

theorem boneDepth_eq_specDepth : boneDepth = specDepth := by
  funext anc
  induction anc with
  | nil => rfl
  | cons k rest ih =>
    cases k with
    | bone =>
      simp only [boneDepth, specDepth, List.takeWhile]
      rw [show (NodeKind.bone == NodeKind.bone) = true from rfl]
      simp only [List.length_cons, ih, specDepth]
    | group => rfl
    | mesh => rfl

/-- C5: every joint discovered by the walk is reported with depth equal to
the number of consecutive joint-typed ancestors (walking up, stopping at
the first non-joint ancestor or the root), and on the example chain
`root → Hips → Spine → Spine1` the pre-order walk yields depths
`[0, 1, 2]` in that order. -/
theorem discover_depths :
    (∀ (n : SceneNode) (anc : List NodeKind),
      collectBonesWith boneDepth n anc = collectBonesWith specDepth n anc) ∧
    collectBones chainExample = [("Hips", 0), ("Spine", 1), ("Spine1", 2)] := by
  constructor
  · intro n anc
    rw [boneDepth_eq_specDepth]
  · rfl

/-! ### PoseHandlerRegistry (`App.tsx` lines 24, 90-96)

`poseHandlersRef.current` is a JS `Map<string, PoseHandler>`;
`registerPoseHandler` is `Map.set` (replace-or-append, keys unique),
`unregisterPoseHandler` is `Map.delete` (no-op on a missing key). Each
registered handler closes over one model's live bone list and captured
initial pose, so the handler is modelled by those two values. -/

/-- The state a registered `PoseHandler` closes over: the live bones and
the initial pose captured at discovery (`Scene.tsx` lines 251-287). -/
structure PoseHandler where
  bones : List Bone
  initialPose : List BoneTransform
deriving DecidableEq, Repr

/-- The handler map, insertion-ordered as a JS `Map` is. -/
abbrev Registry := List (String × PoseHandler)

/-- JS `Map.set`: replace the value of an existing key in place, else
append a new entry at the end. -/
def regSet : Registry → String → PoseHandler → Registry
  | [], k, v => [(k, v)]
  | (k', v') :: rest, k, v =>
    if k' = k then (k, v) :: rest else (k', v') :: regSet rest k v

/-- JS `Map.delete`: remove the entry of the key if present, else no-op. -/
def regDelete : Registry → String → Registry
  | [], _ => []
  | (k', v') :: rest, k => if k' = k then rest else (k', v') :: regDelete rest k

/-- JS `Map.get`: the value of the key, or not-found. -/
def regGet : Registry → String → Option PoseHandler
  | [], _ => none
  | (k', v') :: rest, k => if k' = k then some v' else regGet rest k

/-- One registry mutation: `registerPoseHandler` or `unregisterPoseHandler`
(`App.tsx` lines 90-96). -/
inductive RegOp where
  | register (modelId : String) (handler : PoseHandler)
  | unregister (modelId : String)

def applyOp (r : Registry) : RegOp → Registry
  | RegOp.register k v => regSet r k v
  | RegOp.unregister k => regDelete r k

def applyOps (r : Registry) (ops : List RegOp) : Registry :=
  ops.foldl applyOp r

theorem regSet_keys (r : Registry) (k : String) (v : PoseHandler) :
    (regSet r k v).map Prod.fst = if k ∈ r.map Prod.fst then r.map Prod.fst
      else r.map Prod.fst ++ [k] := by
  induction r with
  | nil => simp [regSet]
  | cons p rest ih =>
    obtain ⟨k', v'⟩ := p
    by_cases h : k' = k
    · subst h
      simp [regSet]
    · simp only [regSet, if_neg h, List.map_cons, ih, List.mem_cons]
      by_cases hmem : k ∈ rest.map Prod.fst
      · simp [hmem, Ne.symm h]
      · simp [hmem, Ne.symm h]

theorem regSet_keys_nodup (r : Registry) (k : String) (v : PoseHandler)
    (hnd : (r.map Prod.fst).Nodup) : ((regSet r k v).map Prod.fst).Nodup := by
  rw [regSet_keys]
  by_cases h : k ∈ r.map Prod.fst
  · simpa [h] using hnd
  · simp only [h, if_false]
    simpa [List.nodup_append, h] using hnd

theorem regDelete_keys_sublist (r : Registry) (k : String) :
    ((regDelete r k).map Prod.fst).Sublist (r.map Prod.fst) := by
  induction r with
  | nil => simp [regDelete]
  | cons p rest ih =>
    obtain ⟨k', v'⟩ := p
    by_cases h : k' = k
    · simp only [regDelete, if_pos h, List.map_cons]
      exact (List.sublist_cons_self _ _)
    · simp only [regDelete, if_neg h, List.map_cons]
      exact ih.cons₂ k'

theorem regDelete_keys_nodup (r : Registry) (k : String)
    (hnd : (r.map Prod.fst).Nodup) : ((regDelete r k).map Prod.fst).Nodup :=
  (regDelete_keys_sublist r k).nodup hnd

theorem applyOps_keys_nodup (ops : List RegOp) :
    ∀ r : Registry, (r.map Prod.fst).Nodup → ((applyOps r ops).map Prod.fst).Nodup := by
  induction ops with
  | nil => intro r h; exact h
  | cons op ops ih =>
    intro r h
    simp only [applyOps, List.foldl_cons]
    refine ih (applyOp r op) ?_
    cases op with
    | register k v => exact regSet_keys_nodup r k v h
    | unregister k => exact regDelete_keys_nodup r k h

theorem regGet_set_self (r : Registry) (k : String) (v : PoseHandler) :
    regGet (regSet r k v) k = some v := by
  induction r with
  | nil => simp [regSet, regGet]
  | cons p rest ih =>
    obtain ⟨k', v'⟩ := p
    by_cases h : k' = k
    · simp [regSet, regGet, h]
    · simp [regSet, regGet, h, ih]

theorem regGet_set_other (r : Registry) (k k' : String) (v : PoseHandler)
    (h : k' ≠ k) : regGet (regSet r k v) k' = regGet r k' := by
  induction r with
  | nil => simp only [regSet, regGet, if_neg (Ne.symm h)]
  | cons p rest ih =>
    obtain ⟨k0, v0⟩ := p
    by_cases h0 : k0 = k
    · subst h0
      simp only [regSet, if_pos rfl, regGet, if_neg (Ne.symm h)]
    · simp only [regSet, if_neg h0, regGet, ih]

theorem regDelete_not_mem (r : Registry) (k : String)
    (h : k ∉ r.map Prod.fst) : regDelete r k = r := by
  induction r with
  | nil => rfl
  | cons p rest ih =>
    obtain ⟨k', v'⟩ := p
    simp only [List.map_cons, List.mem_cons] at h
    push_neg at h
    simp only [regDelete, if_neg (Ne.symm h.1), ih h.2]

theorem regGet_not_mem (r : Registry) (k : String)
    (h : k ∉ r.map Prod.fst) : regGet r k = none := by
  induction r with
  | nil => rfl
  | cons p rest ih =>
    obtain ⟨k', v'⟩ := p
    simp only [List.map_cons, List.mem_cons] at h
    push_neg at h
    simp only [regGet, if_neg (Ne.symm h.1), ih h.2]

theorem regGet_delete_self (r : Registry) (k : String)
    (hnd : (r.map Prod.fst).Nodup) : regGet (regDelete r k) k = none := by
  induction r with
  | nil => rfl
  | cons p rest ih =>
    obtain ⟨k', v'⟩ := p
    simp only [List.map_cons, List.nodup_cons] at hnd
    by_cases h : k' = k
    · subst h
      simp only [regDelete, if_pos rfl]
      exact regGet_not_mem rest k' hnd.1
    · simp only [regDelete, if_neg h, regGet, if_neg h]
      exact ih hnd.2

theorem regGet_delete_other (r : Registry) (k k' : String) (h : k' ≠ k) :
    regGet (regDelete r k) k' = regGet r k' := by
  induction r with
  | nil => rfl
  | cons p rest ih =>
    obtain ⟨k0, v0⟩ := p
    by_cases h0 : k0 = k
    · subst h0
      simp [regDelete, regGet, Ne.symm h]
    · simp only [regDelete, if_neg h0, regGet, ih]

/-! ### C7: registry invariants -/

/-- C7: starting from any registry with unique ids, every sequence of
register/unregister operations preserves at-most-one-handler-per-id;
re-registering an id replaces its handler (and leaves other ids' handlers
unchanged), and unregistering an unknown id is a no-op that leaves the
registry exactly as it was. -/
theorem registry_invariant (r : Registry) (ops : List RegOp) (k k' k₀ : String)
    (v : PoseHandler) (hnd : (r.map Prod.fst).Nodup) (hkk : k' ≠ k) :
    ((applyOps r ops).map Prod.fst).Nodup ∧
    regGet (regSet r k v) k = some v ∧
    regGet (regSet r k v) k' = regGet r k' ∧
    (k₀ ∉ r.map Prod.fst → regDelete r k₀ = r) :=
  ⟨applyOps_keys_nodup ops r hnd, regGet_set_self r k v,
    regGet_set_other r k k' v hkk, regDelete_not_mem r k₀⟩

/-- A concrete handler for witness states. -/
def wHandlerA : PoseHandler := ⟨wBones, captureInitialPose wBones⟩

/-- A second concrete handler, distinct from `wHandlerA`. -/
def wHandlerB : PoseHandler := ⟨dupBones, captureInitialPose dupBones⟩

theorem registry_invariant_witness :
    (([("mA", wHandlerA)] : Registry).map Prod.fst).Nodup ∧
    ("mB" : String) ≠ "mA" ∧
    ((applyOps [("mA", wHandlerA)]
      [RegOp.register "mA" wHandlerB, RegOp.unregister "zz"]).map Prod.fst).Nodup ∧
    regGet (regSet [("mA", wHandlerA)] "mA" wHandlerB) "mA" = some wHandlerB ∧
    regGet (regSet [("mA", wHandlerA)] "mA" wHandlerB) "mB" = regGet [("mA", wHandlerA)] "mB" ∧
    regDelete [("mA", wHandlerA)] "zz" = [("mA", wHandlerA)] := by
  have h := registry_invariant [("mA", wHandlerA)]
    [RegOp.register "mA" wHandlerB, RegOp.unregister "zz"] "mA" "mB" "zz" wHandlerB
    (by decide) (by decide)
  exact ⟨by decide, by decide, h.1, h.2.1, h.2.2.1, h.2.2.2 (by decide)⟩

/-! ### App-level state (`App.tsx`) -/

/-- `BoneInfo` from `src/types` as produced by the discovery effect:
`{ id: uuid, name, depth }`. -/
structure BoneInfo where
  id : String
  name : String
  depth : ℕ
deriving DecidableEq, Repr

/-- `LoadedModel` as held in the `models` state of `App.tsx`. -/
structure LoadedModel where
  id : String
  url : String
  fileName : String
  bones : List BoneInfo
  visible : Bool
deriving DecidableEq, Repr

/-- The `App` state the claims touch: the model list, the selected bone id
(`null` as `none`), and the pose-handler map. -/
structure AppState where
  models : List LoadedModel
  selectedBoneId : Option String
  handlers : Registry
deriving DecidableEq, Repr

/-- `handleDeleteModel` of `App.tsx` (lines 74-88): look up the model,
remove it from the list, delete its handler from the map, and clear the
selection when the removed model's bones contain the selected bone id
(`b.id === selectedBoneId` is false whenever `selectedBoneId` is null).
The `URL.revokeObjectURL` call releases the loader's blob reference and
touches none of the modelled state. -/
def handleDeleteModel (s : AppState) (modelId : String) : AppState :=
  let model := s.models.find? fun m => decide (m.id = modelId)
  { models := s.models.filter fun m => decide (m.id ≠ modelId),
    selectedBoneId :=
      match model with
      | some m =>
        if m.bones.any (fun b => decide (s.selectedBoneId = some b.id)) then none
        else s.selectedBoneId
      | none => s.selectedBoneId,
    handlers := regDelete s.handlers modelId }

/-- JS truthiness of the `!selectedBoneId` test in `App.tsx` line 100:
`null` and the empty string are falsy. -/
def isFalsyId : Option String → Bool
  | none => true
  | some s => decide (s = "")

/-- `activeModelId` of `App.tsx` (lines 99-103): with no (truthy) selected
bone, the last-added model's id (or null with no models); otherwise the
first model whose bone list contains the selected id, falling back to the
FIRST model's id (or null with no models) when no model contains it. -/
def activeModelId (models : List LoadedModel) (selectedBoneId : Option String) :
    Option String :=
  if isFalsyId selectedBoneId then (models.getLast?).map LoadedModel.id
  else
    match models.find? (fun m => m.bones.any fun b => decide (some b.id = selectedBoneId)) with
    | some m => some m.id
    | none => (models.head?).map LoadedModel.id

/-- The `resetPose` closure of a registered handler (`Scene.tsx` 272-282)
as a state transformer: restore the captured initial pose onto the
handler's live bones. -/
def resetHandler (h : PoseHandler) : PoseHandler :=
  { h with bones := resetPose h.initialPose h.bones }

/-- `handleResetPose` of `App.tsx` (lines 138-142): if there is an active
model id and the map holds a handler for it, invoke that handler's
`resetPose` (an in-place mutation of its bones, modelled by replacing the
entry's value). -/
def handleResetPose (s : AppState) : AppState :=
  match activeModelId s.models s.selectedBoneId with
  | none => s
  | some mid =>
    match regGet s.handlers mid with
    | none => s
    | some h => { s with handlers := regSet s.handlers mid (resetHandler h) }

theorem find?_id_of_nodup (models : List LoadedModel) (a : LoadedModel)
    (ha : a ∈ models) (hnd : (models.map LoadedModel.id).Nodup) :
    models.find? (fun m => decide (m.id = a.id)) = some a := by
  induction models with
  | nil => simp at ha
  | cons m rest ih =>
    simp only [List.map_cons, List.nodup_cons] at hnd
    rcases List.mem_cons.mp ha with h | h
    · subst h
      simp [List.find?]
    · have hne : m.id ≠ a.id := fun hc =>
        hnd.1 (hc ▸ List.mem_map_of_mem LoadedModel.id h)
      simp only [List.find?, decide_eq_false hne]
      exact ih h hnd.2

/-! ### C8: disposal isolation -/

/-- C8: deleting a Ready model `a` (present in the model list, with unique
model ids and unique handler keys) removes exactly `a`'s registry entry:
`get a.id` is not-found afterwards, any other id's handler is returned
unchanged, every other model stays in the list, and the selection is
cleared precisely when the selected joint is one of `a`'s bones. -/
theorem dispose_isolation (s : AppState) (a : LoadedModel) (bId : String)
    (ha : a ∈ s.models) (hids : (s.models.map LoadedModel.id).Nodup)
    (hreg : (s.handlers.map Prod.fst).Nodup) (hb : bId ≠ a.id) :
    regGet (handleDeleteModel s a.id).handlers a.id = none ∧
    regGet (handleDeleteModel s a.id).handlers bId = regGet s.handlers bId ∧
    (∀ m ∈ s.models, m.id ≠ a.id → m ∈ (handleDeleteModel s a.id).models) ∧
    (handleDeleteModel s a.id).selectedBoneId =
      (if a.bones.any (fun b => decide (s.selectedBoneId = some b.id)) then none
       else s.selectedBoneId) := by
  refine ⟨?_, ?_, ?_, ?_⟩
  · exact regGet_delete_self s.handlers a.id hreg
  · exact regGet_delete_other s.handlers a.id bId hb
  · intro m hm hne
    simp only [handleDeleteModel, List.mem_filter, decide_eq_true_eq]
    exact ⟨hm, by simpa using hne⟩
  · simp only [handleDeleteModel, find?_id_of_nodup s.models a ha hids]

/-- Three concrete models for app-level witnesses. -/
def wModelA : LoadedModel := ⟨"mA", "blob:a", "a.fbx", [⟨"a1", "Hips", 0⟩], true⟩

def wModelB : LoadedModel := ⟨"mB", "blob:b", "b.fbx", [⟨"b1", "Hips", 0⟩], true⟩

theorem dispose_isolation_witness :
    (wModelA ∈ [wModelA, wModelB]) ∧
    (([wModelA, wModelB].map LoadedModel.id).Nodup) ∧
    ((([("mA", wHandlerA), ("mB", wHandlerB)] : Registry).map Prod.fst).Nodup) ∧
    (("mB" : String) ≠ wModelA.id) ∧
    regGet (handleDeleteModel ⟨[wModelA, wModelB], some "a1",
      [("mA", wHandlerA), ("mB", wHandlerB)]⟩ wModelA.id).handlers wModelA.id = none ∧
    regGet (handleDeleteModel ⟨[wModelA, wModelB], some "a1",
      [("mA", wHandlerA), ("mB", wHandlerB)]⟩ wModelA.id).handlers "mB"
      = some wHandlerB ∧
    (handleDeleteModel ⟨[wModelA, wModelB], some "a1",
      [("mA", wHandlerA), ("mB", wHandlerB)]⟩ wModelA.id).selectedBoneId = none := by
  have h := dispose_isolation ⟨[wModelA, wModelB], some "a1",
    [("mA", wHandlerA), ("mB", wHandlerB)]⟩ wModelA "mB"
    (by decide) (by decide) (by decide) (by decide)
  refine ⟨by decide, by decide, by decide, by decide, h.1, ?_, ?_⟩
  · rw [h.2.1]; decide
  · rw [h.2.2.2]; decide

/-! ### C9: ownership resolution -/

/-- A model for the C9 counterexample: one loaded model whose bone list
does NOT contain the probed joint id. -/
def cModel : LoadedModel := ⟨"m1", "blob:1", "c.fbx", [⟨"b1", "Hips", 0⟩], true⟩

/-- C9 counterexample: with one loaded model that does not own joint "zz",
`activeModelId` (the code's `ownerOf`) returns `some "m1"` — the first
loaded model — rather than the none the claim requires. -/
theorem ownerOf_fallback_ce :
    (cModel.bones.any fun b => decide (some b.id = some "zz")) = false ∧
    activeModelId [cModel] (some "zz") = some "m1" := by
  constructor
  · decide
  · decide

/-- C9 (amended): `ownerOf` scans the model list in order; when no loaded
model's bone list contains the probed (truthy) joint id it returns the
FIRST loaded model's id — none only when no models are loaded — and when
some model contains it, it returns the id of a model that does. -/
theorem ownerOf_resolution (models : List LoadedModel) (sel : String)
    (hsel : sel ≠ "") :
    ((∀ m ∈ models, ∀ b ∈ m.bones, b.id ≠ sel) →
      activeModelId models (some sel) = (models.head?).map LoadedModel.id) ∧
    (∀ m ∈ models, (∃ b ∈ m.bones, b.id = sel) →
      ∃ m' ∈ models, (∃ b ∈ m'.bones, b.id = sel) ∧
        activeModelId models (some sel) = some m'.id) := by
  have hfalsy : isFalsyId (some sel) = false := by
    simp [isFalsyId, hsel]
  constructor
  · intro hnone
    have hfind : models.find?
        (fun m => m.bones.any fun b => decide (some b.id = some sel)) = none := by
      rw [List.find?_eq_none]
      intro m hm
      simp only [List.any_eq_true, decide_eq_true_eq, Option.some.injEq, not_exists]
      push_neg
      intro b hb
      exact hnone m hm b hb
    simp only [activeModelId, hfalsy, Bool.false_eq_true, if_false, hfind]
  · intro m hm hex
    have hsome : (models.find?
        (fun m' => m'.bones.any fun b => decide (some b.id = some sel))).isSome := by
      rw [List.find?_isSome]
      refine ⟨m, hm, ?_⟩
      simp only [List.any_eq_true, decide_eq_true_eq, Option.some.injEq]
      obtain ⟨b, hb, hid⟩ := hex
      exact ⟨b, hb, hid⟩
    obtain ⟨m', hfind⟩ := Option.isSome_iff_exists.mp hsome
    have hm'mem := List.mem_of_find?_eq_some hfind
    have hp' := List.find?_some hfind
    simp only [List.any_eq_true, decide_eq_true_eq, Option.some.injEq] at hp'
    refine ⟨m', hm'mem, hp', ?_⟩
    simp only [activeModelId, hfalsy, Bool.false_eq_true, if_false, hfind]

theorem ownerOf_resolution_witness :
    (("b1" : String) ≠ "") ∧
    activeModelId [cModel] (some "b1") = some "m1" := by
  have h := ownerOf_resolution [cModel] "b1" (by decide)
  obtain ⟨m', hm', hb, heq⟩ := h.2 cModel (by decide) ⟨⟨"b1", "Hips", 0⟩, by decide, rfl⟩
  refine ⟨by decide, ?_⟩
  rw [heq]
  rcases List.mem_singleton.mp hm' with rfl
  rfl

/-! ### C10: active-model fallback routing -/

/-- C10: with at least one model loaded, the pose operations routed through
the active model id target the MOST RECENTLY ADDED model when nothing is
selected, and the FIRST loaded model when the selected joint id belongs to
no loaded model; `handleResetPose` applies `resetPose` to exactly the
handler registered under that active id. -/
theorem active_model_fallback (s : AppState) (_hm : s.models ≠ []) :
    (s.selectedBoneId = none →
      activeModelId s.models s.selectedBoneId = (s.models.getLast?).map LoadedModel.id) ∧
    (∀ j, s.selectedBoneId = some j → j ≠ "" →
      (∀ m ∈ s.models, ∀ b ∈ m.bones, b.id ≠ j) →
      activeModelId s.models s.selectedBoneId = (s.models.head?).map LoadedModel.id) ∧
    (∀ mid h, activeModelId s.models s.selectedBoneId = some mid →
      regGet s.handlers mid = some h →
      handleResetPose s = { s with handlers := regSet s.handlers mid (resetHandler h) }) := by
  refine ⟨?_, ?_, ?_⟩
  · intro hsel
    simp [activeModelId, hsel, isFalsyId]
  · intro j hsel hj hnone
    rw [hsel]
    exact (ownerOf_resolution s.models j hj).1 hnone
  · intro mid h hact hget
    simp only [handleResetPose, hact, hget]

theorem active_model_fallback_witness :
    (([wModelA, wModelB] : List LoadedModel) ≠ []) ∧
    activeModelId [wModelA, wModelB] none = some "mB" ∧
    activeModelId [wModelA, wModelB] (some "zz") = some "mA" ∧
    handleResetPose ⟨[wModelA, wModelB], none, [("mB", wHandlerB)]⟩
      = ⟨[wModelA, wModelB], none, [("mB", resetHandler wHandlerB)]⟩ := by
  have h0 := active_model_fallback ⟨[wModelA, wModelB], none, [("mB", wHandlerB)]⟩
    (by decide)
  have h1 := active_model_fallback ⟨[wModelA, wModelB], some "zz", []⟩ (by decide)
  have hact : activeModelId [wModelA, wModelB] none = some "mB" :=
    (h0.1 rfl).trans (by rfl)
  refine ⟨by decide, hact, ?_, ?_⟩
  · exact (h1.2.1 "zz" rfl (by decide) (by decide)).trans (by rfl)
  · exact (h0.2.2 "mB" wHandlerB hact (by rfl)).trans (by rfl)

end Poser
